import Mathlib

/-!
Shallow embedding of the nb-curator sources (src/nb_curator) and proofs about
the behaviour its specification claims.

The embedding models:
* Python `re` pattern matching (as used with `re.search` / `re.match`) by a
  small regular-expression engine based on Brzozowski derivatives;
* the filesystem visible to `pathlib.Path.glob("**/*.ipynb")` as a list of
  entries (path string plus an is-file flag);
* YAML mappings by association lists, preserving key insertion order;
* Python exceptions (`RuntimeError`, `KeyError`, `NameError`, ...) by an
  `Except` monad with an explicit error type.
-/

namespace NbCurator

/-- Regular expressions, the abstract syntax of the (compiled) Python `re`
patterns the source passes to `re.search` / `re.match`.  `zero` is the empty
language (used only by derivatives), `eps` the empty string, `dot` the `.`
metacharacter (any one character), and `alt`/`cat`/`star` the usual
alternation, concatenation and Kleene star. -/
inductive Regex where
  | zero : Regex
  | eps : Regex
  | lit : Char → Regex
  | dot : Regex
  | alt : Regex → Regex → Regex
  | cat : Regex → Regex → Regex
  | star : Regex → Regex
deriving DecidableEq, Repr

/-- Does the regex accept the empty string? -/
def Regex.nullable : Regex → Bool
  | .zero => false
  | .eps => true
  | .lit _ => false
  | .dot => false
  | .alt a b => a.nullable || b.nullable
  | .cat a b => a.nullable && b.nullable
  | .star _ => true

/-- Brzozowski derivative of a regex with respect to one character. -/
def Regex.deriv : Regex → Char → Regex
  | .zero, _ => .zero
  | .eps, _ => .zero
  | .lit c, d => if d = c then .eps else .zero
  | .dot, _ => .eps
  | .alt a b, d => .alt (a.deriv d) (b.deriv d)
  | .cat a b, d =>
    if a.nullable then .alt (.cat (a.deriv d) b) (b.deriv d)
    else .cat (a.deriv d) b
  | .star a, d => .cat (a.deriv d) (.star a)

/-- Whole-list (anchored, full-match) acceptance, via iterated derivatives. -/
def Regex.matchChars (r : Regex) (cs : List Char) : Bool :=
  (cs.foldl Regex.deriv r).nullable

/-- Does the regex match some (possibly empty) prefix of the character list?
This is Python `re.match` semantics at a fixed start position. -/
def Regex.matchPre : Regex → List Char → Bool
  | r, [] => r.nullable
  | r, c :: cs => r.nullable || (r.deriv c).matchPre cs

/-- Does the regex match starting at some position of the list?  This is the
semantics of Python `re.search`: try `re.match` at every start position. -/
def Regex.searchChars : Regex → List Char → Bool
  | r, [] => r.nullable
  | r, c :: cs => r.matchPre (c :: cs) || r.searchChars cs

/-- `re.search(r, s)` truthiness on a Python string. -/
def reSearch (r : Regex) (s : String) : Bool :=
  r.searchChars s.data

/-- The compiled regex of a literal pattern string (no metacharacters). -/
def Regex.ofLiteral (s : String) : Regex :=
  s.data.foldr (fun c r => .cat (.lit c) r) .eps

/-- String prefix test, on the character lists (kernel-evaluable). -/
def strIsPrefixOf (p s : String) : Bool :=
  p.data.isPrefixOf s.data

/-- `s.endswith(suffix)`, on the character lists. -/
def strEndsWith (s sfx : String) : Bool :=
  sfx.data.isSuffixOf s.data

/-- Helper of `strSplitOnChar`: the chunk read so far is `acc`, reversed. -/
def splitOnCharAux (sep : Char) : List Char → List Char → List (List Char)
  | [], acc => [acc.reverse]
  | c :: cs, acc =>
    if c = sep then acc.reverse :: splitOnCharAux sep cs []
    else splitOnCharAux sep cs (c :: acc)

/-- Python `s.split(sep)` for a one-character separator. -/
def strSplitOnChar (sep : Char) (s : String) : List String :=
  (splitOnCharAux sep s.data []).map String.mk

/-- Helper of `strReplace`: Python `str.replace` on character lists, replacing
non-overlapping occurrences left to right (the pattern is never empty where
the source uses it).  Structural recursion on a fuel counter; any fuel at
least the list length gives the fixed point. -/
def replaceAux (pat repl : List Char) : Nat → List Char → List Char
  | _, [] => []
  | 0, l => l
  | fuel + 1, c :: cs =>
    if pat.isPrefixOf (c :: cs) && !pat.isEmpty then
      repl ++ replaceAux pat repl fuel (cs.drop (pat.length - 1))
    else c :: replaceAux pat repl fuel cs

/-- Python `s.replace(pat, repl)`. -/
def strReplace (s pat repl : String) : String :=
  String.mk (replaceAux pat.data repl.data s.data.length s.data)

/-- Python `s.strip()`: drop leading and trailing whitespace. -/
def strTrim (s : String) : String :=
  String.mk
    (((s.data.dropWhile Char.isWhitespace).reverse.dropWhile Char.isWhitespace).reverse)

/-- A filesystem entry as the selection code sees it: its full path string
(`str(nb_path)`) and whether it is a regular file (`Path.is_file()`). -/
structure FsEntry where
  path : String
  isFile : Bool
deriving DecidableEq, Repr

/-- The filesystem: the entries that exist, in directory-walk order. -/
abbrev FileSystem := List FsEntry

/-- `Path(base) / sub`: `pathlib` drops a bare `"."` component. -/
def pathJoin (base sub : String) : String :=
  if sub = "." then base else base ++ "/" ++ sub

/-- `Path(base).glob("**/*.ipynb")`: every entry strictly below `base` whose
name ends in `.ipynb`, in filesystem order. -/
def globIpynb (fs : FileSystem) (base : String) : List FsEntry :=
  fs.filter (fun e => strIsPrefixOf (base ++ "/") e.path && strEndsWith e.path ".ipynb")

/-- `Path(p).exists()`: the path is an entry itself or has entries below it. -/
def pathExists (fs : FileSystem) (p : String) : Bool :=
  fs.any (fun e => e.path == p || strIsPrefixOf (p ++ "/") e.path)

/-- Is `sub` a prefix of one of the suffixes of the second list? -/
def containsAux (sub : List Char) : List Char → Bool
  | [] => sub.isPrefixOf []
  | c :: cs => sub.isPrefixOf (c :: cs) || containsAux sub cs

/-- Python `sub in s` substring containment on strings. -/
def strContains (s sub : String) : Bool :=
  containsAux sub.data s.data

/-- The compiled reserved pattern `r"(.ipynb_|-)checkpoints"` of
`SpecManager._exclude_notebooks`. -/
def checkpointRegex : Regex :=
  .cat (.alt (.cat .dot (Regex.ofLiteral "ipynb_")) (.lit '-')) (Regex.ofLiteral "checkpoints")

/-- One `selected_notebooks` entry as `SpecManager` reads it.  The
include/exclude patterns are carried as compiled regexes, since
`SpecManager` hands the pattern strings to `re.search`. -/
structure SmEntry where
  nb_repo : Option String
  root_nb_directory : Option String
  include_subdirs : Option (List Regex)
  exclude_subdirs : Option (List Regex)

/-- The parts of a validated spec that notebook selection reads. -/
structure SmSpec where
  header_nb_repo : String
  header_root_nb_directory : Option String
  entries : List SmEntry

namespace SpecManager

/-- `SpecManager._only_included_non_files`: keep the file entries whose full
path string `re.search`-matches at least one include pattern (the source
breaks at the first matching pattern, which is `List.any`). -/
def only_included_non_files (possible_notebooks : List FsEntry)
    (include_regexes : List Regex) : List FsEntry :=
  possible_notebooks.filter (fun e =>
    e.isFile && include_regexes.any (fun r => reSearch r e.path))

/-- `SpecManager._exclude_notebooks`: drop checkpoint paths (the reserved
pattern, tested before any user pattern), then drop paths matching some
exclude pattern; the survivors are returned as path strings. -/
def exclude_notebooks (included_notebooks : List FsEntry)
    (exclude_subdirs : List Regex) : List String :=
  (included_notebooks.filter (fun e =>
      !(reSearch checkpointRegex e.path)
        && !(exclude_subdirs.any (fun r => reSearch r e.path)))).map FsEntry.path

/-- `SpecManager._process_directory_entry`: resolve the base directory, glob
for notebooks, apply includes then checkpoint/exclude filtering.  The default
include list is `[r"."]` and the default exclude list is empty. -/
def process_directory_entry (fs : FileSystem) (entry : SmEntry)
    (repo_dir : String) (root_nb_directory : String) : List String :=
  let base_path := if root_nb_directory = "" then repo_dir
    else pathJoin repo_dir root_nb_directory
  let possible_notebooks := globIpynb fs base_path
  let included := only_included_non_files possible_notebooks
    (entry.include_subdirs.getD [Regex.dot])
  exclude_notebooks included (entry.exclude_subdirs.getD [])

/-- `os.path.basename`: the component after the last `/`. -/
def pyBasename (s : String) : String :=
  (strSplitOnChar '/' s).getLastD ""

/-- `SpecManager._get_repo_dir`: `repos_dir / basename(url).replace(".git", "")`. -/
def get_repo_dir (repos_dir : String) (nb_repo : String) : String :=
  pathJoin repos_dir (strReplace (pyBasename nb_repo) ".git" "")

/-- The per-entry notebook root: `entry.get("root_nb_directory")` if truthy,
else the header's `root_nb_directory` (defaulted to `""`). -/
def entry_final_root (spec : SmSpec) (entry : SmEntry) : String :=
  let header_root := spec.header_root_nb_directory.getD ""
  match entry.root_nb_directory with
  | some r => if r = "" then header_root else r
  | none => header_root

/-- The notebooks one `selected_notebooks` entry contributes in
`SpecManager.collect_notebook_paths`. -/
def collect_entry (fs : FileSystem) (repos_dir : String) (spec : SmSpec)
    (entry : SmEntry) : List String :=
  let selection_repo := entry.nb_repo.getD spec.header_nb_repo
  let clone_dir := get_repo_dir repos_dir selection_repo
  process_directory_entry fs entry clone_dir (entry_final_root spec entry)

/-- `SpecManager.collect_notebook_paths`: extend the accumulated list with
every entry's selection.  (The source's `if not clone_dir: continue` can
never fire, because a `Path` object is always truthy.) -/
def collect_notebook_paths (fs : FileSystem) (spec : SmSpec)
    (repos_dir : String) : List String :=
  spec.entries.foldl (fun acc entry => acc ++ collect_entry fs repos_dir spec entry) []

end SpecManager

/-- One `selected_notebooks` entry as `NotebookProcessor` reads it: the
include/exclude patterns stay plain strings, because this implementation
joins the includes onto the base path and tests the excludes with the `in`
substring operator. -/
structure NpEntry where
  nb_repo : Option String
  root_nb_directory : Option String
  include_subdirs : Option (List String)
  exclude_subdirs : Option (List String)

/-- The parts of a spec that `NotebookProcessor` selection reads. -/
structure NpSpec where
  header_nb_repo : String
  header_root_nb_directory : Option String
  entries : List NpEntry

namespace NotebookProcessor

/-- `NotebookProcessor._process_directory_entry`: each include pattern is
used as a literal subdirectory name joined onto the base path (skipped with a
warning when it does not exist); each globbed notebook is kept unless some
exclude pattern is a literal substring of its path string. -/
def process_directory_entry (fs : FileSystem) (entry : NpEntry)
    (repo_dir : String) (root_nb_directory : String) : List String :=
  let base_path := if root_nb_directory = "" then repo_dir
    else pathJoin repo_dir root_nb_directory
  let include_subdirs := entry.include_subdirs.getD ["."]
  let exclude_subdirs := entry.exclude_subdirs.getD []
  include_subdirs.foldl (fun acc subdir =>
    let subdir_path := pathJoin base_path subdir
    if pathExists fs subdir_path then
      acc ++ ((globIpynb fs subdir_path).map FsEntry.path).filter
        (fun p => !(exclude_subdirs.any (fun ex => strContains p ex)))
    else acc) []

/-- `NotebookProcessor.collect_notebook_paths`: look the entry's repository
up in `repos_to_setup` (a not-set-up repository is skipped with an error),
resolve the notebook root, and extend the accumulated list with the entry's
selection. -/
def collect_notebook_paths (fs : FileSystem) (spec : NpSpec)
    (repos_to_setup : String → Option String) : List String :=
  spec.entries.foldl (fun acc entry =>
    let nb_repo := entry.nb_repo.getD spec.header_nb_repo
    match repos_to_setup nb_repo with
    | none => acc
    | some repo_dir =>
      let root := entry.root_nb_directory.getD (spec.header_root_nb_directory.getD "")
      acc ++ process_directory_entry fs entry repo_dir root) []

end NotebookProcessor

/-- Lexicographic comparison of character lists by code point, the order
Python string comparison uses. -/
def charListLe : List Char → List Char → Bool
  | [], _ => true
  | _ :: _, [] => false
  | a :: as, b :: bs =>
    if a.toNat < b.toNat then true
    else if b.toNat < a.toNat then false
    else charListLe as bs

/-- Python `<=` on strings. -/
def strLe (a b : String) : Bool :=
  charListLe a.data b.data

/-- Insert into a `strLe`-sorted list, keeping it sorted. -/
def pyInsert (x : String) : List String → List String
  | [] => [x]
  | y :: ys => if strLe x y then x :: y :: ys else y :: pyInsert x ys

/-- Python `sorted` on a list of strings (insertion sort; on duplicate-free
input every correct sort returns the same list). -/
def pySorted : List String → List String
  | [] => []
  | y :: ys => pyInsert y (pySorted ys)

/-- The contents of Python `set(l)`, modelled in first-occurrence order:
iteration order over a Python set is unspecified, and every property proved
here about a set's use is order-insensitive. -/
def pySet (l : List String) : List String :=
  l.foldl (fun acc x => if acc.contains x then acc else acc ++ [x]) []

namespace SpecManager

/-- The URL computation of `SpecManager.get_repository_urls`, over the
header's default URL and each entry's optional `nb_repo` override:
`urls = [default]`, append each entry URL not already present, then
`sorted(list(set(urls)))`. -/
def repository_urls_of (header_nb_repo : String) (entry_repos : List (Option String)) :
    List String :=
  let urls := entry_repos.foldl (fun urls r? =>
    let nb_repo := r?.getD header_nb_repo
    if urls.contains nb_repo then urls else urls ++ [nb_repo]) [header_nb_repo]
  pySorted (pySet urls)

end SpecManager

/-- An external `git` invocation the repository manager performs. -/
inductive GitAction where
  | pull (repo_dir : String)
  | cloneRepo (repo_url repo_dir : String)
deriving DecidableEq, Repr

namespace RepositoryManager

/-- `_update_repo`: run `git -C repo_dir pull`; a failed pull is logged as a
warning ("Continuing with existing version") and the existing path is
returned either way, so the result does not depend on the pull's outcome. -/
def update_repo (repo_dir : String) : String × List GitAction :=
  (repo_dir, [GitAction.pull repo_dir])

/-- `_clone_repo`: run `git clone --single-branch url repo_dir`. -/
def clone_repo (repo_url repo_dir : String) : String × List GitAction :=
  (repo_dir, [GitAction.cloneRepo repo_url repo_dir])

/-- `_clone_or_update_repo`: update when the clone directory exists, clone
otherwise (the `except` branch, for a raising clone, is not modelled: the
claims here concern the existing-directory path, which cannot raise). -/
def clone_or_update_repo (dir_exists : Bool) (repo_url repo_dir : String) :
    Option String × List GitAction :=
  if dir_exists then
    let (p, acts) := update_repo repo_dir
    (some p, acts)
  else
    let (p, acts) := clone_repo repo_url repo_dir
    (some p, acts)

/-- `repo_url.split("/")[-1].replace(".git", "")`. -/
def remote_repo_name (repo_url : String) : String :=
  strReplace ((strSplitOnChar '/' repo_url).getLastD "") ".git" ""

/-- `_setup_remote_repo`: in reuse-only mode an existing directory is
returned untouched and a missing one is an error; in clone mode the work is
delegated to `_clone_or_update_repo`.  `existing_dirs` lists the clone
directories present on disk. -/
def setup_remote_repo (clone : Bool) (existing_dirs : List String)
    (repos_dir repo_url : String) : Option String × List GitAction :=
  let repo_dir := pathJoin repos_dir (remote_repo_name repo_url)
  if !clone then
    if existing_dirs.contains repo_dir then (some repo_dir, [])
    else (none, [])
  else clone_or_update_repo (existing_dirs.contains repo_dir) repo_url repo_dir

end RepositoryManager

/-- A requirements file: its path and its raw lines. -/
structure ReqFile where
  path : String
  lines : List String
deriving DecidableEq, Repr

/-- The Python exceptions the embedded code can raise. -/
inductive PyErr where
  | runtimeError (msg : String)
  | keyError (key : String)
  | nameError (name : String)
  | valueError (msg : String)
deriving DecidableEq, Repr

namespace RequirementsCompiler

/-- `read_package_lines`: strip each line, omit blanks and `#` comments. -/
def read_package_lines (f : ReqFile) : List String :=
  (f.lines.map strTrim).filter (fun l => !(l == "") && !(strIsPrefixOf "#" l))

/-- `read_package_versions`: concatenate the package lines of the files. -/
def read_package_versions (files : List ReqFile) : List String :=
  files.foldl (fun acc f => acc ++ read_package_lines f) []

/-- `annotated_requirements`: the loop body evaluates the comprehension
`[(pkgdep, str(req_file)) for pkg in lines]` whose expression reads the
undefined name `pkgdep`, so the first file with a non-empty package-line
list raises `NameError` (the loop variable is `pkg`).  When every file has
an empty line list the loop builds a list of empty lists, `sorted` keeps it,
and the final `for pkg, path in result` unpacking raises `ValueError`; only
an empty file list reaches the `"\n".join` over nothing. -/
def annotated_requirements (files : List ReqFile) : Except PyErr String :=
  if files.any (fun f => !(read_package_lines f).isEmpty) then
    .error (.nameError "pkgdep")
  else if files.isEmpty then
    .ok ""
  else
    .error (.valueError "not enough values to unpack")

/-- `compile_requirements`: `resolver_ok` is the outcome of the external
`uv pip compile` run and `compiled_output` the pinned lines read back from
`output_path` on success.  An empty file list returns the falsy
`logger.warning` result (modelled `none`); on resolver failure the code
evaluates `annotated_requirements` inside a log call before it could return
`None`, so any exception from it propagates. -/
def compile_requirements (resolver_ok : Bool) (compiled_output : List String)
    (files : List ReqFile) : Except PyErr (Option (List String)) :=
  if files.isEmpty then .ok none
  else if !resolver_ok then
    match annotated_requirements files with
    | .error e => .error e
    | .ok _ => .ok none
  else .ok (some compiled_output)

end RequirementsCompiler

/-- The allowed keywords of `image_spec_header` (`ALLOWED_KEYWORDS`, shared
verbatim by `SpecValidator` and `SpecManager`). -/
def allowed_header_keywords : List String :=
  ["image_name", "description", "valid_on", "expires_on", "python_version",
   "nb_repo", "root_nb_directory", "deployment_name", "kernel_name"]

/-- The required fields of `image_spec_header`. -/
def required_header_fields : List String :=
  ["image_name", "python_version", "valid_on", "expires_on", "nb_repo"]

/-- The allowed keywords of a `selected_notebooks` entry. -/
def allowed_selected_keywords : List String :=
  ["nb_repo", "root_nb_directory", "include_subdirs", "exclude_subdirs"]

/-- `_validate_header_section` of `SpecValidator` and `SpecManager` (the two
are textually identical), over the header's key list in insertion order.
Returns the boolean result together with the messages this call logs: the
source returns the falsy `self.logger.error(msg)` at the FIRST offending
key, so a single call never logs more than one message. -/
def validate_header_section (header_keys : List String) : Bool × List String :=
  match header_keys.find? (fun k => !(allowed_header_keywords.contains k)) with
  | some k => (false, ["Unknown keyword in image_spec_header: " ++ k])
  | none =>
    match required_header_fields.find? (fun f => !(header_keys.contains f)) with
    | some f => (false, ["Missing required field in image_spec_header: " ++ f])
    | none => (true, [])

/-- A `selected_notebooks` entry as a raw YAML mapping: its key/value pairs
in insertion order.  Values are modelled as strings; the embedded accessors
only ever read the string-valued `nb_repo` key, the rest pass through. -/
structure SelEntryDoc where
  items : List (String × String)
deriving DecidableEq, Repr

/-- The loaded YAML spec document.  `header`/`selected_notebooks` are the two
recognized top-level sections (absent when the key is missing), `has_out`
records an `out` section, and `extra_top_keys` any further top-level keys in
insertion order. -/
structure SpecDoc where
  header : Option (List (String × String))
  selected_notebooks : Option (List SelEntryDoc)
  has_out : Bool
  extra_top_keys : List String
deriving DecidableEq, Repr

/-- `not self._spec`: the dictionary is falsy when empty. -/
def SpecDoc.isEmptyDoc (d : SpecDoc) : Bool :=
  d.header.isNone && d.selected_notebooks.isNone && !d.has_out
    && d.extra_top_keys.isEmpty

/-- `_validate_top_level_structure`: required keys first, then the first
unrecognized top-level key. -/
def validate_top_level_structure (d : SpecDoc) : Bool × List String :=
  if d.header.isNone then (false, ["Missing required field: image_spec_header"])
  else if d.selected_notebooks.isNone then
    (false, ["Missing required field: selected_notebooks"])
  else
    match d.extra_top_keys.find? (fun k =>
        !(["image_spec_header", "selected_notebooks", "out"].contains k)) with
    | some k => (false, ["Unknown top-level keyword: " ++ k])
    | none => (true, [])

/-- The first unknown key over the entries of `selected_notebooks`. -/
def find_entry_violation : List SelEntryDoc → Option String
  | [] => none
  | e :: es =>
    match e.items.find? (fun kv => !(allowed_selected_keywords.contains kv.1)) with
    | some kv => some kv.1
    | none => find_entry_violation es

/-- `_validate_selected_notebooks_section`. -/
def validate_selected_notebooks_section (d : SpecDoc) : Bool × List String :=
  match d.selected_notebooks with
  | none => (false, ["Missing selected_notebooks section"])
  | some entries =>
    match find_entry_violation entries with
    | some k => (false, ["Unknown keyword in selected_notebooks entry: " ++ k])
    | none => (true, [])

/-- `_validate_directory_repos` is a stub in the source (`return True`). -/
def validate_directory_repos (_d : SpecDoc) : Bool × List String :=
  (true, [])

/-- `SpecManager` runtime state: the loaded spec and the validation flag. -/
structure SpecManagerState where
  spec : SpecDoc
  is_validated : Bool
deriving DecidableEq, Repr

namespace SpecManager

/-- `_validate_header_section` as `SpecManager.validate` reaches it: the
`self._spec["image_spec_header"]` subscription is only evaluated after
`_validate_top_level_structure` passed, so the header is present there. -/
def validate_header_of (d : SpecDoc) : Bool × List String :=
  match d.header with
  | some h => validate_header_section (h.map Prod.fst)
  | none => (false, [])

/-- `SpecManager.validate`: an unloaded (empty) spec fails; otherwise the
four category validators run under short-circuiting `and`, and only full
success sets `_is_validated`. -/
def validate (s : SpecManagerState) : SpecManagerState × Bool :=
  if s.spec.isEmptyDoc then (s, false)
  else
    let ok := (validate_top_level_structure s.spec).1
      && (validate_header_of s.spec).1
      && (validate_selected_notebooks_section s.spec).1
      && (validate_directory_repos s.spec).1
    if ok then ({ s with is_validated := true }, true) else (s, false)

/-- `_ensure_validated`: raise `RuntimeError` unless `_is_validated`. -/
def ensure_validated (s : SpecManagerState) : Except PyErr Unit :=
  if s.is_validated then .ok ()
  else .error (.runtimeError "Spec must be validated before accessing data")

/-- `self._spec["image_spec_header"][key]`: `KeyError` on a missing key. -/
def header_item (s : SpecManagerState) (key : String) : Except PyErr String :=
  match s.spec.header with
  | none => .error (.keyError "image_spec_header")
  | some h =>
    match h.find? (fun kv => kv.1 == key) with
    | some kv => .ok kv.2
    | none => .error (.keyError key)

/-- Property `deployment_name`. -/
def deployment_name (s : SpecManagerState) : Except PyErr String := do
  let _ ← ensure_validated s
  header_item s "deployment_name"

/-- Property `kernel_name`. -/
def kernel_name (s : SpecManagerState) : Except PyErr String := do
  let _ ← ensure_validated s
  header_item s "kernel_name"

/-- Property `image_name`. -/
def image_name (s : SpecManagerState) : Except PyErr String := do
  let _ ← ensure_validated s
  header_item s "image_name"

/-- Property `python_version`. -/
def python_version (s : SpecManagerState) : Except PyErr String := do
  let _ ← ensure_validated s
  header_item s "python_version"

/-- Property `nb_repo`. -/
def nb_repo (s : SpecManagerState) : Except PyErr String := do
  let _ ← ensure_validated s
  header_item s "nb_repo"

/-- Property `selected_notebooks`. -/
def selected_notebooks (s : SpecManagerState) : Except PyErr (List SelEntryDoc) := do
  let _ ← ensure_validated s
  match s.spec.selected_notebooks with
  | none => .error (.keyError "selected_notebooks")
  | some entries => .ok entries

/-- `s.lower()` (ASCII case folding suffices for the embedded uses). -/
def strLower (s : String) : String :=
  String.mk (s.data.map Char.toLower)

/-- `get_moniker`: the image name with spaces replaced by dashes,
lower-cased. -/
def get_moniker (s : SpecManagerState) : Except PyErr String := do
  let _ ← ensure_validated s
  let name ← image_name s
  .ok (strLower (strReplace name " " "-"))

/-- `SpecManager.get_repository_urls`, the method: ensure validated, then
compute the URL list from the header default and the entries. -/
def get_repository_urls (s : SpecManagerState) : Except PyErr (List String) := do
  let _ ← ensure_validated s
  let default ← nb_repo s
  let entries ← selected_notebooks s
  .ok (repository_urls_of default (entries.map (fun e =>
    (e.items.find? (fun kv => kv.1 == "nb_repo")).map Prod.snd)))

end SpecManager

/-- A notebook cell: its `cell_type` and its `source` lines.  A scalar
`source` string is the one-element list (the code joins either with `""`). -/
structure Cell where
  cell_type : String
  source : List String
deriving DecidableEq, Repr

/-- A parsed notebook document: its `cells` list. -/
structure Notebook where
  cells : List Cell
deriving DecidableEq, Repr

namespace NotebookProcessor

/-- The modules `_extract_root_package` discards as built-ins. -/
def builtin_modules : List String :=
  ["__future__", "builtins", "sys", "os"]

/-- A character of the regex class `[a-zA-Z0-9_\.]`. -/
def isNameChar (c : Char) : Bool :=
  c.isAlpha || c.isDigit || c = '_' || c = '.'

/-- Match a literal character sequence at the head, returning the rest. -/
def matchLiteral : List Char → List Char → Option (List Char)
  | [], cs => some cs
  | _ :: _, [] => none
  | p :: ps, c :: cs => if c = p then matchLiteral ps cs else none

/-- Match `\s+` at the head.  (Greedy consumption is exact here: in the
pattern of `import_pattern` every `\s+` is followed by a non-whitespace
token, so no backtracking into the whitespace run can succeed.) -/
def matchWs1 : List Char → Option (List Char)
  | [] => none
  | c :: cs =>
    if c.isWhitespace then some (cs.dropWhile Char.isWhitespace) else none

/-- First alternative of `import_pattern`, `^import\s+([a-zA-Z0-9_\.]+)`:
the captured group.  The `+` is greedy and nothing follows it, so the group
is the maximal name-character run. -/
def matchImportAlt (cs : List Char) : Option String := do
  let r1 ← matchLiteral "import".data cs
  let r2 ← matchWs1 r1
  let name := r2.takeWhile isNameChar
  if name.isEmpty then none else some (String.mk name)

/-- Second alternative, `from\s+([a-zA-Z0-9_\.]+)\s+import`: name characters
and whitespace are disjoint, so the greedy group is again the maximal run. -/
def matchFromAlt (cs : List Char) : Option String := do
  let r1 ← matchLiteral "from".data cs
  let r2 ← matchWs1 r1
  let name := r2.takeWhile isNameChar
  if name.isEmpty then none
  else
    let r3 ← matchWs1 (r2.dropWhile isNameChar)
    let _ ← matchLiteral "import".data r3
    some (String.mk name)

/-- `self.import_pattern.match(line)` followed by
`match.group(1) or match.group(2)`: `re.match` anchors both alternatives at
the start of the (already stripped) line. -/
def import_pattern_match (line : String) : Option String :=
  match matchImportAlt line.data with
  | some g1 => some g1
  | none => matchFromAlt line.data

/-- `_extract_root_package` on the matched dotted name: the first
dot-separated segment, with built-in modules discarded (`None`). -/
def extract_root_package (package_path : String) : Option String :=
  let root := (strSplitOnChar '.' package_path).headD ""
  if builtin_modules.contains root then none else some root

/-- `_get_cell_source`: `"".join(source)`. -/
def get_cell_source (cell : Cell) : String :=
  String.join cell.source

/-- `_extract_imports_from_notebook`: over each code cell's joined source,
split into lines, strip each, match the import pattern, extract the root
package, and add truthy results to the `imports` set (modelled as a
duplicate-free list in first-insertion order). -/
def extract_imports_from_notebook (nb : Notebook) : List String :=
  nb.cells.foldl (fun imports cell =>
    if cell.cell_type == "code" then
      (strSplitOnChar '\n' (get_cell_source cell)).foldl (fun imports line =>
        match import_pattern_match (strTrim line) with
        | none => imports
        | some package_path =>
          match extract_root_package package_path with
          | none => imports
          | some root =>
            if root == "" then imports
            else if imports.contains root then imports
            else imports ++ [root]) imports
    else imports) []

/-- One step of `extract_imports`'s dictionary update:
`import_to_nb.setdefault(imp, []).append(path)` in effect. -/
def dict_append (d : List (String × List String)) (k v : String) :
    List (String × List String) :=
  match d with
  | [] => [(k, [v])]
  | (k0, vs) :: rest =>
    if k0 = k then (k0, vs ++ [v]) :: rest else (k0, vs) :: dict_append rest k v

/-- `extract_imports`: iterate over `set(notebook_paths)` (modelled in
first-occurrence order; C9 below shows the resulting mapping is
order-insensitive), skip notebooks that fail to parse (`fs p = none`), and
record each extracted import against the notebook's path.  `fs` is the
filesystem's path → parsed-notebook reading. -/
def extract_imports (fs : String → Option Notebook) (notebook_paths : List String) :
    List (String × List String) :=
  (pySet notebook_paths).foldl (fun acc p =>
    match fs p with
    | none => acc
    | some nb =>
      (extract_imports_from_notebook nb).foldl (fun acc imp => dict_append acc imp p) acc) []

/-- `d[k]` of the modelled dictionary, `[]` when the key is absent. -/
def dictGet : List (String × List String) → String → List String
  | [], _ => []
  | (k0, vs) :: rest, k => if k0 = k then vs else dictGet rest k

/-- The modelled dictionary's keys, in insertion order. -/
def dictKeys (d : List (String × List String)) : List String :=
  d.map Prod.fst

end NotebookProcessor

/-- Is the result a raised `RuntimeError`? -/
def isRuntimeError {α : Type} : Except PyErr α → Bool
  | .error (.runtimeError _) => true
  | _ => false

/-- A small well-formed spec document: all required header fields present, no
unknown keys anywhere, default repository `"zzz"`, one selection entry
overriding the repository to `"aaa"`. -/
def exampleSpecDoc : SpecDoc where
  header := some [("image_name", "Img Name"), ("python_version", "3.11"),
    ("valid_on", "2025-01-01"), ("expires_on", "2026-01-01"),
    ("nb_repo", "zzz"), ("deployment_name", "dep"), ("kernel_name", "k")]
  selected_notebooks := some [⟨[("nb_repo", "aaa")]⟩]
  has_out := false
  extra_top_keys := []

/-- The manager state holding `exampleSpecDoc`, before validation. -/
def exampleState : SpecManagerState where
  spec := exampleSpecDoc
  is_validated := false

/-- The compiled form of the pattern string `"a.b"`. -/
def regexADotB : Regex :=
  .cat (.lit 'a') (.cat .dot (.lit 'b'))

/-- A spec whose two identical selection entries both select everything under
the default repository. -/
def twoRuleSpec : SmSpec where
  header_nb_repo := "https://x/repo.git"
  header_root_nb_directory := none
  entries := [⟨none, none, none, none⟩, ⟨none, none, none, none⟩]

/-- A notebook with one code cell containing `import numpy as np` and
`from os import path`. -/
def numpyNotebook : Notebook where
  cells := [⟨"code", ["import numpy as np\n", "from os import path"]⟩]

/-- The imports one notebook path contributes in `extract_imports`: none when
the file does not parse, otherwise its extracted import set. -/
def NotebookProcessor.importsOf (fs : String → Option Notebook) (p : String) :
    List String :=
  match fs p with
  | none => []
  | some nb => NotebookProcessor.extract_imports_from_notebook nb

theorem Regex.matchChars_nil (r : Regex) : r.matchChars [] = r.nullable := rfl

theorem Regex.matchChars_cons (r : Regex) (c : Char) (cs : List Char) :
    Regex.matchChars r (c :: cs) = Regex.matchChars (r.deriv c) cs := rfl

/-- `matchPre` is exactly "some prefix is a full match". -/
theorem Regex.matchPre_iff (r : Regex) (cs : List Char) :
    r.matchPre cs = true ↔ ∃ p q, cs = p ++ q ∧ r.matchChars p = true := by
  induction cs generalizing r with
  | nil =>
    simp only [Regex.matchPre, Regex.matchChars]
    constructor
    · intro h; exact ⟨[], [], rfl, h⟩
    · rintro ⟨p, q, hpq, hm⟩
      rcases List.append_eq_nil.mp hpq.symm with ⟨hp, _⟩
      subst hp; simpa [Regex.matchChars] using hm
  | cons c cs ih =>
    simp only [Regex.matchPre, Bool.or_eq_true]
    constructor
    · rintro (h | h)
      · exact ⟨[], c :: cs, rfl, by simpa [Regex.matchChars] using h⟩
      · rcases (ih (r.deriv c)).mp h with ⟨p, q, hpq, hm⟩
        exact ⟨c :: p, q, by simp [hpq], by simpa [Regex.matchChars_cons] using hm⟩
    · rintro ⟨p, q, hpq, hm⟩
      cases p with
      | nil =>
        left; simpa [Regex.matchChars] using hm
      | cons c' p' =>
        right
        rw [List.cons_append] at hpq
        injection hpq with hc ht
        subst hc
        exact (ih (r.deriv c)).mpr ⟨p', q, ht, by simpa [Regex.matchChars_cons] using hm⟩

/-- `searchChars` (hence Python `re.search`) has unanchored substring
semantics: the regex matches some contiguous substring. -/
theorem Regex.searchChars_iff (r : Regex) (cs : List Char) :
    r.searchChars cs = true ↔ ∃ p m q, cs = p ++ m ++ q ∧ r.matchChars m = true := by
  induction cs with
  | nil =>
    simp only [Regex.searchChars]
    constructor
    · intro h; exact ⟨[], [], [], rfl, by simpa [Regex.matchChars] using h⟩
    · rintro ⟨p, m, q, hpq, hm⟩
      rcases List.append_eq_nil.mp (List.append_eq_nil.mp hpq.symm).1 with ⟨_, hm0⟩
      subst hm0
      simpa [Regex.matchChars] using hm
  | cons c cs ih =>
    simp only [Regex.searchChars, Bool.or_eq_true]
    constructor
    · rintro (h | h)
      · rcases (Regex.matchPre_iff r (c :: cs)).mp h with ⟨p, q, hpq, hm⟩
        exact ⟨[], p, q, by simp [hpq], hm⟩
      · rcases ih.mp h with ⟨p, m, q, hpq, hm⟩
        exact ⟨c :: p, m, q, by simp [hpq], hm⟩
    · rintro ⟨p, m, q, hpq, hm⟩
      cases p with
      | nil =>
        left
        exact (Regex.matchPre_iff r (c :: cs)).mpr ⟨m, q, by simpa using hpq, hm⟩
      | cons c' p' =>
        right
        rw [List.append_assoc, List.cons_append] at hpq
        injection hpq with hc ht
        exact ih.mpr ⟨p', m, q, by simpa using ht, hm⟩

theorem charListLe_cons_iff (x y : Char) (xs ys : List Char) :
    charListLe (x :: xs) (y :: ys) = true ↔
      x.toNat < y.toNat ∨ (x.toNat = y.toNat ∧ charListLe xs ys = true) := by
  simp only [charListLe]
  by_cases h1 : x.toNat < y.toNat
  · simp [h1]
  · by_cases h2 : y.toNat < x.toNat
    · rw [if_neg h1, if_pos h2]
      constructor
      · intro h; cases h
      · rintro (h | ⟨h, _⟩) <;> omega
    · have hxy : x.toNat = y.toNat := by omega
      rw [if_neg h1, if_neg h2]
      simp [hxy]

theorem charListLe_total (a : List Char) : ∀ b, (charListLe a b || charListLe b a) = true := by
  induction a with
  | nil => intro b; simp [charListLe]
  | cons x xs ih =>
    intro b
    cases b with
    | nil => simp [charListLe]
    | cons y ys =>
      simp only [Bool.or_eq_true, charListLe_cons_iff]
      rcases Nat.lt_trichotomy x.toNat y.toNat with h | h | h
      · exact Or.inl (Or.inl h)
      · rcases Bool.or_eq_true_iff.mp (ih ys) with h' | h'
        · exact Or.inl (Or.inr ⟨h, h'⟩)
        · exact Or.inr (Or.inr ⟨h.symm, h'⟩)
      · exact Or.inr (Or.inl h)

theorem charListLe_trans (a : List Char) : ∀ b c, charListLe a b = true →
    charListLe b c = true → charListLe a c = true := by
  induction a with
  | nil => intro b c _ _; simp [charListLe]
  | cons x xs ih =>
    intro b c hab hbc
    cases b with
    | nil => simp [charListLe] at hab
    | cons y ys =>
      cases c with
      | nil => simp [charListLe] at hbc
      | cons z zs =>
        rw [charListLe_cons_iff] at hab hbc ⊢
        rcases hab with h1 | ⟨h1, h1'⟩ <;> rcases hbc with h2 | ⟨h2, h2'⟩
        · exact Or.inl (by omega)
        · exact Or.inl (by omega)
        · exact Or.inl (by omega)
        · exact Or.inr ⟨by omega, ih ys zs h1' h2'⟩

theorem strLe_total (a b : String) : (strLe a b || strLe b a) = true :=
  charListLe_total a.data b.data

theorem strLe_trans (a b c : String) (hab : strLe a b = true) (hbc : strLe b c = true) :
    strLe a c = true :=
  charListLe_trans a.data b.data c.data hab hbc

theorem mem_pyInsert (a x : String) (l : List String) :
    a ∈ pyInsert x l ↔ a = x ∨ a ∈ l := by
  induction l with
  | nil => simp [pyInsert]
  | cons y ys ih =>
    simp only [pyInsert]
    split
    · simp
    · simp only [List.mem_cons, ih]
      tauto

theorem pyInsert_perm (x : String) (l : List String) : (pyInsert x l).Perm (x :: l) := by
  induction l with
  | nil => simp [pyInsert]
  | cons y ys ih =>
    simp only [pyInsert]
    split
    · exact List.Perm.refl _
    · exact (ih.cons y).trans (List.Perm.swap x y ys)

theorem sorted_pyInsert (x : String) (l : List String)
    (h : l.Pairwise (fun a b => strLe a b = true)) :
    (pyInsert x l).Pairwise (fun a b => strLe a b = true) := by
  induction l with
  | nil => simp [pyInsert]
  | cons y ys ih =>
    rcases List.pairwise_cons.mp h with ⟨hy, hys⟩
    simp only [pyInsert]
    split
    · rename_i hxy
      refine List.pairwise_cons.mpr ⟨?_, h⟩
      intro b hb
      rcases List.mem_cons.mp hb with rfl | hb
      · exact hxy
      · exact strLe_trans x y b hxy (hy b hb)
    · rename_i hxy
      have hyx : strLe y x = true := by
        rcases Bool.or_eq_true_iff.mp (strLe_total x y) with h' | h'
        · exact absurd h' hxy
        · exact h'
      refine List.pairwise_cons.mpr ⟨?_, ih hys⟩
      intro b hb
      rcases (mem_pyInsert b x ys).mp hb with rfl | hb
      · exact hyx
      · exact hy b hb

theorem sorted_pySorted (l : List String) :
    (pySorted l).Pairwise (fun a b => strLe a b = true) := by
  induction l with
  | nil => simp [pySorted]
  | cons y ys ih => exact sorted_pyInsert y (pySorted ys) ih

theorem pySorted_perm (l : List String) : (pySorted l).Perm l := by
  induction l with
  | nil => simp [pySorted]
  | cons y ys ih => exact (pyInsert_perm y (pySorted ys)).trans (ih.cons y)

theorem mem_pySet_go (l : List String) : ∀ (acc : List String) (x : String),
    (x ∈ l.foldl (fun acc y => if acc.contains y then acc else acc ++ [y]) acc)
      ↔ x ∈ acc ∨ x ∈ l := by
  induction l with
  | nil => intro acc x; simp
  | cons y ys ih =>
    intro acc x
    simp only [List.foldl_cons]
    by_cases hc : acc.contains y
    · rw [if_pos hc, ih]
      have hy : y ∈ acc := List.elem_iff.mp hc
      simp only [List.mem_cons]
      constructor
      · rintro (h | h)
        · exact Or.inl h
        · exact Or.inr (Or.inr h)
      · rintro (h | rfl | h)
        · exact Or.inl h
        · exact Or.inl hy
        · exact Or.inr h
    · rw [if_neg hc, ih]
      simp only [List.mem_append, List.mem_singleton, List.mem_cons]
      tauto

theorem nodup_pySet_go (l : List String) : ∀ acc : List String, acc.Nodup →
    (l.foldl (fun acc y => if acc.contains y then acc else acc ++ [y]) acc).Nodup := by
  induction l with
  | nil => intro acc h; simpa using h
  | cons y ys ih =>
    intro acc h
    simp only [List.foldl_cons]
    by_cases hc : acc.contains y
    · rw [if_pos hc]; exact ih acc h
    · rw [if_neg hc]
      refine ih _ ?_
      have hy : y ∉ acc := fun hmem => hc (List.elem_iff.mpr hmem)
      simp [List.nodup_append, h, hy]

theorem mem_pySet (x : String) (l : List String) : x ∈ pySet l ↔ x ∈ l := by
  simpa [pySet] using mem_pySet_go l [] x

theorem nodup_pySet (l : List String) : (pySet l).Nodup :=
  nodup_pySet_go l [] (by simp)

theorem mem_urls_go (default : String) (repos : List (Option String)) :
    ∀ (acc : List String) (u : String),
    (u ∈ repos.foldl (fun urls r? =>
        let nb_repo := r?.getD default
        if urls.contains nb_repo then urls else urls ++ [nb_repo]) acc)
      ↔ u ∈ acc ∨ ∃ r ∈ repos, r.getD default = u := by
  induction repos with
  | nil => intro acc u; simp
  | cons r rs ih =>
    intro acc u
    simp only [List.foldl_cons]
    by_cases hc : acc.contains (r.getD default)
    · rw [if_pos hc, ih, List.exists_mem_cons_iff]
      have hr : r.getD default ∈ acc := List.elem_iff.mp hc
      constructor
      · rintro (h | h)
        · exact Or.inl h
        · exact Or.inr (Or.inr h)
      · rintro (h | h | h)
        · exact Or.inl h
        · exact Or.inl (h ▸ hr)
        · exact Or.inr h
    · rw [if_neg hc, ih, List.exists_mem_cons_iff]
      simp only [List.mem_append, List.mem_singleton]
      constructor
      · rintro ((h | h) | h)
        · exact Or.inl h
        · exact Or.inr (Or.inl h.symm)
        · exact Or.inr (Or.inr h)
      · rintro (h | h | h)
        · exact Or.inl (Or.inl h)
        · exact Or.inl (Or.inr h.symm)
        · exact Or.inr h

/-- C1 (counterexample): a validated manifest whose header default repository
is `"zzz"` and whose single selection overrides to `"aaa"`.  The claim
demands the default-first order `["zzz", "aaa"]`; `get_repository_urls`
returns the lexicographically sorted `["aaa", "zzz"]`. -/
theorem C1_counterexample :
    (SpecManager.validate exampleState).2 = true
      ∧ SpecManager.get_repository_urls (SpecManager.validate exampleState).1
          = .ok ["aaa", "zzz"]
      ∧ ["aaa", "zzz"] ≠ ["zzz", "aaa"] := by
  refine ⟨by decide, by rfl, by decide⟩

/-- C1 (amended): for every validated manifest, `get_repository_urls` returns
the set consisting of the header's default repository URL and each
selection-rule override (with an absent override standing for the default),
with duplicates removed, in lexicographically sorted order — not default
first.  Stated over the URL computation `repository_urls_of` that the method
applies to the header default and the entries' `nb_repo` values. -/
theorem C1_amended :
    ∀ (header_nb_repo : String) (entry_repos : List (Option String)),
      List.Sorted (fun a b => strLe a b = true)
          (SpecManager.repository_urls_of header_nb_repo entry_repos)
        ∧ (SpecManager.repository_urls_of header_nb_repo entry_repos).Nodup
        ∧ ∀ u, u ∈ SpecManager.repository_urls_of header_nb_repo entry_repos ↔
            (u = header_nb_repo ∨ ∃ r ∈ entry_repos, r.getD header_nb_repo = u) := by
  intro d repos
  refine ⟨sorted_pySorted _, ?_, ?_⟩
  · exact ((pySorted_perm _).nodup_iff).mpr (nodup_pySet _)
  · intro u
    rw [SpecManager.repository_urls_of, (pySorted_perm _).mem_iff, mem_pySet,
      mem_urls_go]
    simp

/-- C4 (counterexample): a header holding every required field plus the two
unrecognized keys `bogus1` and `bogus2`.  The claim expects both reported in
one validation pass; the code logs only the first and returns. -/
theorem C4_counterexample :
    validate_header_section
        ["image_name", "python_version", "valid_on", "expires_on", "nb_repo",
          "bogus1", "bogus2"]
      = (false, ["Unknown keyword in image_spec_header: bogus1"])
    ∧ "Unknown keyword in image_spec_header: bogus2" ∉
        (validate_header_section
          ["image_name", "python_version", "valid_on", "expires_on", "nb_repo",
            "bogus1", "bogus2"]).2 := by
  refine ⟨by decide, by decide⟩

/-- C4 (amended): validation short-circuits within a category too: a call of
`_validate_header_section` logs at most one violation (the first offending
key), never all violations of the category. -/
theorem C4_amended : ∀ (header_keys : List String),
    (validate_header_section header_keys).2.length ≤ 1 := by
  intro keys
  unfold validate_header_section
  split
  · simp
  · split <;> simp

/-- C5 (counterexample): in clone mode an already-existing clone is NOT left
unchanged: resolution runs `git pull` on it (returning the existing path). -/
theorem C5_counterexample :
    RepositoryManager.setup_remote_repo true ["rd/repo"] "rd" "https://x/repo.git"
        = (some "rd/repo", [GitAction.pull "rd/repo"])
      ∧ [GitAction.pull "rd/repo"] ≠ ([] : List GitAction) := by
  refine ⟨by decide, by decide⟩

/-- C5 (amended): in clone mode resolution of a URL whose clone directory
exists returns the existing path but runs `git pull` on the working copy (a
failed pull is downgraded to a warning); it is reuse-only mode that returns
an existing clone with no git action at all. -/
theorem C5_amended : ∀ (existing_dirs : List String) (repos_dir repo_url : String),
    existing_dirs.contains
        (pathJoin repos_dir (RepositoryManager.remote_repo_name repo_url)) = true →
      RepositoryManager.setup_remote_repo true existing_dirs repos_dir repo_url
          = (some (pathJoin repos_dir (RepositoryManager.remote_repo_name repo_url)),
              [GitAction.pull (pathJoin repos_dir (RepositoryManager.remote_repo_name repo_url))])
        ∧ RepositoryManager.setup_remote_repo false existing_dirs repos_dir repo_url
            = (some (pathJoin repos_dir (RepositoryManager.remote_repo_name repo_url)), []) := by
  intro dirs rd url h
  unfold RepositoryManager.setup_remote_repo RepositoryManager.clone_or_update_repo
    RepositoryManager.update_repo
  simp [h, List.elem_iff.mp h]

/-- C5 (witness): the amended statement at a concrete repository layout. -/
theorem C5_witness :
    RepositoryManager.setup_remote_repo true ["rd/repo"] "rd" "https://x/repo.git"
        = (some (pathJoin "rd" (RepositoryManager.remote_repo_name "https://x/repo.git")),
            [GitAction.pull (pathJoin "rd" (RepositoryManager.remote_repo_name "https://x/repo.git"))])
      ∧ RepositoryManager.setup_remote_repo false ["rd/repo"] "rd" "https://x/repo.git"
          = (some (pathJoin "rd" (RepositoryManager.remote_repo_name "https://x/repo.git")), []) :=
  C5_amended ["rd/repo"] "rd" "https://x/repo.git" (by decide)

/-- C7: two requirement files pin conflicting exact versions of `numpy` and
the resolver fails.  The claim (and the code's own docstrings) promise a
`(package, contributing file)` diagnostic listing and a `None` return;
instead `annotated_requirements` evaluates the undefined name `pkgdep`, so
the call raises `NameError` and `compile_requirements` never returns. -/
theorem C7_conflict_diagnostic_raises :
    RequirementsCompiler.compile_requirements false []
        [⟨"a/requirements.txt", ["numpy==1.0"]⟩, ⟨"b/requirements.txt", ["numpy==2.0"]⟩]
      = .error (.nameError "pkgdep")
    ∧ RequirementsCompiler.annotated_requirements
        [⟨"a/requirements.txt", ["numpy==1.0"]⟩, ⟨"b/requirements.txt", ["numpy==2.0"]⟩]
      = .error (.nameError "pkgdep") :=
  ⟨rfl, rfl⟩

/-- C8: a notebook whose single code cell holds `import numpy as np` and
`from os import path` yields exactly `{"numpy": [path]}`; the package is the
first dotted segment of the imported name (`numpy.linalg` ↦ `numpy`,
`os.path` ↦ `os`), and names in the built-in set, `os` included, are
discarded. -/
theorem C8_import_extraction :
    NotebookProcessor.extract_imports
        (fun p => if p == "/nb/a.ipynb" then some numpyNotebook else none)
        ["/nb/a.ipynb"]
      = [("numpy", ["/nb/a.ipynb"])]
    ∧ NotebookProcessor.extract_root_package "os" = none
    ∧ NotebookProcessor.extract_root_package "os.path" = none
    ∧ NotebookProcessor.extract_root_package "numpy.linalg" = some "numpy" := by
  refine ⟨by decide, by decide, by decide, by decide⟩

theorem foldl_append_eq_join {α β : Type} (f : α → List β) (l : List α) :
    ∀ acc : List β, l.foldl (fun a x => a ++ f x) acc = acc ++ (l.map f).flatten := by
  induction l with
  | nil => intro acc; simp
  | cons x xs ih => intro acc; simp [ih]

/-- C2 (counterexample): two identical selection rules each select the same
notebook; the aggregated collection lists its path twice, not once. -/
theorem C2_counterexample :
    SpecManager.collect_notebook_paths [⟨"rd/repo/a.ipynb", true⟩] twoRuleSpec "rd"
        = ["rd/repo/a.ipynb", "rd/repo/a.ipynb"]
      ∧ (SpecManager.collect_notebook_paths [⟨"rd/repo/a.ipynb", true⟩] twoRuleSpec
          "rd").count "rd/repo/a.ipynb" = 2 := by
  refine ⟨by decide, by decide⟩

/-- C2 (amended): notebook collection concatenates the per-rule selections in
rule order with no deduplication, so a path selected by several rules appears
once per selecting rule; paths are deduplicated only downstream, where
`extract_imports` iterates over `set(notebook_paths)` (whose modelled
contents, `pySet`, are duplicate-free and preserve membership). -/
theorem C2_amended :
    (∀ (fs : FileSystem) (spec : SmSpec) (repos_dir : String),
      SpecManager.collect_notebook_paths fs spec repos_dir
        = (spec.entries.map (SpecManager.collect_entry fs repos_dir spec)).flatten)
    ∧ (∀ l : List String, (pySet l).Nodup ∧ ∀ x, x ∈ pySet l ↔ x ∈ l) := by
  constructor
  · intro fs spec repos_dir
    simpa using foldl_append_eq_join (SpecManager.collect_entry fs repos_dir spec)
      spec.entries []
  · exact fun l => ⟨nodup_pySet l, fun x => mem_pySet x l⟩

theorem Regex.matchPre_eps (cs : List Char) : Regex.eps.matchPre cs = true := by
  cases cs <;> simp [Regex.matchPre, Regex.nullable]

theorem Regex.searchChars_dot (cs : List Char) (h : cs ≠ []) :
    Regex.dot.searchChars cs = true := by
  cases cs with
  | nil => exact absurd rfl h
  | cons c cs' =>
    simp [Regex.searchChars, Regex.matchPre, Regex.nullable, Regex.deriv,
      Regex.matchPre_eps]

theorem globIpynb_path_ne_nil (fs : FileSystem) (base : String) (e : FsEntry)
    (h : e ∈ globIpynb fs base) : e.path.data ≠ [] := by
  rw [globIpynb, List.mem_filter] at h
  have hpre : strIsPrefixOf (base ++ "/") e.path = true := by
    have h2 := h.2
    rw [Bool.and_eq_true] at h2
    exact h2.1
  rw [strIsPrefixOf] at hpre
  intro hnil
  rw [hnil] at hpre
  cases hd : (base ++ "/").data with
  | nil =>
    have : (base ++ "/").data.length = base.data.length + 1 := by
      simp [String.data_append]
    rw [hd] at this
    simp at this
  | cons c l =>
    rw [hd] at hpre
    simp [List.isPrefixOf] at hpre

/-- C3 (counterexample): the orchestrator's selection implementation
(`NotebookProcessor._process_directory_entry`), with the default match-any
includes and no excludes, returns a checkpoint-directory notebook: no
checkpoint exclusion exists on that path. -/
theorem C3_counterexample :
    NotebookProcessor.process_directory_entry
        [⟨"repo/tut/a.ipynb", true⟩, ⟨"repo/.ipynb_checkpoints/a-checkpoint.ipynb", true⟩]
        ⟨none, none, none, none⟩ "repo" ""
      = ["repo/tut/a.ipynb", "repo/.ipynb_checkpoints/a-checkpoint.ipynb"]
    ∧ reSearch checkpointRegex "repo/.ipynb_checkpoints/a-checkpoint.ipynb" = true := by
  refine ⟨by decide, by decide⟩

/-- C3 (amended): in `SpecManager`'s selection the claim holds: with the
default match-any include list and empty excludes, the selection is exactly
the globbed notebook files under the resolved base minus every
checkpoint-matching path, and no checkpoint-matching path survives any
include/exclude configuration.  (`NotebookProcessor`'s selection, the one the
orchestrator calls, has no checkpoint exclusion — the counterexample.) -/
theorem C3_amended :
    (∀ (fs : FileSystem) (r? rt? : Option String) (repo_dir root : String),
      SpecManager.process_directory_entry fs ⟨r?, rt?, none, none⟩ repo_dir root
        = ((globIpynb fs (if root = "" then repo_dir else pathJoin repo_dir root)).filter
            (fun e => e.isFile && !(reSearch checkpointRegex e.path))).map FsEntry.path)
    ∧ (∀ (fs : FileSystem) (entry : SmEntry) (repo_dir root : String),
        (SpecManager.process_directory_entry fs entry repo_dir root).all
          (fun p => !(reSearch checkpointRegex p)) = true) := by
  constructor
  · intro fs r? rt? repo_dir root
    unfold SpecManager.process_directory_entry SpecManager.only_included_non_files
      SpecManager.exclude_notebooks
    simp only [Option.getD_none, List.filter_filter]
    congr 1
    apply List.filter_congr
    intro e he
    have hne : e.path.data ≠ [] := globIpynb_path_ne_nil _ _ e he
    have hdot : reSearch Regex.dot e.path = true := Regex.searchChars_dot _ hne
    simp [reSearch] at hdot
    simp [reSearch, hdot, Bool.and_comm]
  · intro fs entry repo_dir root
    unfold SpecManager.process_directory_entry SpecManager.exclude_notebooks
    rw [List.all_eq_true]
    intro p hp
    rw [List.mem_map] at hp
    obtain ⟨e, he, rfl⟩ := hp
    rw [List.mem_filter] at he
    have h2 := he.2
    rw [Bool.and_eq_true] at h2
    exact h2.1

/-- C6 (counterexample): `NotebookProcessor`'s selection does not interpret
patterns as regexes: the exclude pattern `"a.b"` (whose compiled regex
`a.b` search-matches `repo/axb.ipynb`) fails to exclude that path because it
is tested as a literal substring; the include pattern `"tutorials"` (whose
regex search-matches `repo/mytutorials/x.ipynb`) selects nothing because it
is joined onto the base path as a literal subdirectory name. -/
theorem C6_counterexample :
    NotebookProcessor.process_directory_entry [⟨"repo/axb.ipynb", true⟩]
        ⟨none, none, none, some ["a.b"]⟩ "repo" "" = ["repo/axb.ipynb"]
      ∧ reSearch regexADotB "repo/axb.ipynb" = true
      ∧ NotebookProcessor.process_directory_entry [⟨"repo/mytutorials/x.ipynb", true⟩]
          ⟨none, none, some ["tutorials"], none⟩ "repo" "" = []
      ∧ reSearch (Regex.ofLiteral "tutorials") "repo/mytutorials/x.ipynb" = true := by
  refine ⟨by decide, by decide, by decide, by decide⟩

/-- C6 (amended): in `SpecManager`'s selection the claim holds: an entry is
kept by the include stage iff it is a file and some include regex matches a
contiguous substring of the full path string (unanchored search, not
full-string matching), and the exclusion test likewise succeeds iff some
exclude regex matches a substring of the full path.  `NotebookProcessor`'s
selection instead joins include patterns as literal subdirectories and tests
excludes by literal substring containment (the counterexample). -/
theorem C6_amended :
    (∀ (include_regexes : List Regex) (possible : List FsEntry) (e : FsEntry),
      e ∈ SpecManager.only_included_non_files possible include_regexes ↔
        e ∈ possible ∧ e.isFile = true
          ∧ ∃ r ∈ include_regexes, ∃ p m q,
              e.path.data = p ++ m ++ q ∧ r.matchChars m = true)
    ∧ (∀ (rs : List Regex) (s : String),
        rs.any (fun r => reSearch r s) = true ↔
          ∃ r ∈ rs, ∃ p m q, s.data = p ++ m ++ q ∧ r.matchChars m = true) := by
  have hsearch : ∀ (rs : List Regex) (s : String),
      rs.any (fun r => reSearch r s) = true ↔
        ∃ r ∈ rs, ∃ p m q, s.data = p ++ m ++ q ∧ r.matchChars m = true := by
    intro rs s
    rw [List.any_eq_true]
    constructor
    · rintro ⟨r, hr, hs⟩
      exact ⟨r, hr, (Regex.searchChars_iff r s.data).mp hs⟩
    · rintro ⟨r, hr, hmatch⟩
      exact ⟨r, hr, (Regex.searchChars_iff r s.data).mpr hmatch⟩
  refine ⟨?_, hsearch⟩
  intro incl possible e
  rw [SpecManager.only_included_non_files, List.mem_filter, Bool.and_eq_true,
    hsearch incl e.path]

theorem dictKeys_cons (k0 : String) (vs : List String) (rest : List (String × List String)) :
    NotebookProcessor.dictKeys ((k0, vs) :: rest) = k0 :: NotebookProcessor.dictKeys rest := rfl

theorem dictGet_dict_append (d : List (String × List String)) (k v k' : String) :
    NotebookProcessor.dictGet (NotebookProcessor.dict_append d k v) k'
      = if k' = k then NotebookProcessor.dictGet d k ++ [v]
        else NotebookProcessor.dictGet d k' := by
  induction d with
  | nil =>
    simp only [NotebookProcessor.dict_append, NotebookProcessor.dictGet]
    by_cases h : k' = k
    · subst h; simp
    · simp [h, Ne.symm h]
  | cons kv rest ih =>
    obtain ⟨k0, vs⟩ := kv
    simp only [NotebookProcessor.dict_append]
    by_cases h0 : k0 = k
    · subst h0
      simp only [if_pos rfl, NotebookProcessor.dictGet]
      by_cases h' : k0 = k'
      · subst h'; simp
      · simp [h', Ne.symm h']
    · simp only [if_neg h0, NotebookProcessor.dictGet]
      by_cases h' : k0 = k'
      · subst h'
        simp [h0]
      · simp [h', ih]

theorem mem_dictGet_dict_append (d : List (String × List String)) (k v k' u : String) :
    u ∈ NotebookProcessor.dictGet (NotebookProcessor.dict_append d k v) k'
      ↔ u ∈ NotebookProcessor.dictGet d k' ∨ (k' = k ∧ u = v) := by
  rw [dictGet_dict_append]
  by_cases h : k' = k
  · subst h; simp
  · simp [h]

theorem mem_dictKeys_dict_append (d : List (String × List String)) (k v k' : String) :
    k' ∈ NotebookProcessor.dictKeys (NotebookProcessor.dict_append d k v)
      ↔ k' = k ∨ k' ∈ NotebookProcessor.dictKeys d := by
  induction d with
  | nil => simp [NotebookProcessor.dict_append, NotebookProcessor.dictKeys]
  | cons kv rest ih =>
    obtain ⟨k0, vs⟩ := kv
    simp only [NotebookProcessor.dict_append]
    by_cases h0 : k0 = k
    · subst h0
      rw [if_pos rfl, dictKeys_cons, dictKeys_cons]
      simp only [List.mem_cons]
      tauto
    · rw [if_neg h0, dictKeys_cons, dictKeys_cons]
      simp only [List.mem_cons, ih]
      tauto

theorem mem_dictGet_imports_fold (p : String) (imps : List String) :
    ∀ (acc : List (String × List String)) (k u : String),
      u ∈ NotebookProcessor.dictGet
          (imps.foldl (fun a imp => NotebookProcessor.dict_append a imp p) acc) k
        ↔ u ∈ NotebookProcessor.dictGet acc k ∨ (k ∈ imps ∧ u = p) := by
  induction imps with
  | nil => intro acc k u; simp
  | cons i rest ih =>
    intro acc k u
    simp only [List.foldl_cons]
    rw [ih, mem_dictGet_dict_append]
    simp only [List.mem_cons]
    by_cases h : k = i
    · subst h; tauto
    · constructor
      · rintro ((hu | ⟨_, hu⟩) | ⟨hk, hu⟩)
        · exact Or.inl hu
        · exact absurd ‹k = i› h
        · exact Or.inr ⟨Or.inr hk, hu⟩
      · rintro (hu | ⟨hk | hk, hu⟩)
        · exact Or.inl (Or.inl hu)
        · exact absurd hk h
        · exact Or.inr ⟨hk, hu⟩

theorem mem_dictKeys_imports_fold (p : String) (imps : List String) :
    ∀ (acc : List (String × List String)) (k : String),
      k ∈ NotebookProcessor.dictKeys
          (imps.foldl (fun a imp => NotebookProcessor.dict_append a imp p) acc)
        ↔ k ∈ NotebookProcessor.dictKeys acc ∨ k ∈ imps := by
  induction imps with
  | nil => intro acc k; simp
  | cons i rest ih =>
    intro acc k
    simp only [List.foldl_cons]
    rw [ih, mem_dictKeys_dict_append]
    simp only [List.mem_cons]
    tauto

theorem mem_dictGet_extract_fold (fs : String → Option Notebook) (paths : List String) :
    ∀ (acc : List (String × List String)) (k u : String),
      u ∈ NotebookProcessor.dictGet
          (paths.foldl (fun acc p =>
            match fs p with
            | none => acc
            | some nb =>
              (NotebookProcessor.extract_imports_from_notebook nb).foldl
                (fun acc imp => NotebookProcessor.dict_append acc imp p) acc) acc) k
        ↔ u ∈ NotebookProcessor.dictGet acc k
            ∨ (u ∈ paths ∧ k ∈ NotebookProcessor.importsOf fs u) := by
  induction paths with
  | nil => intro acc k u; simp
  | cons p rest ih =>
    intro acc k u
    simp only [List.foldl_cons]
    cases hfp : fs p with
    | none =>
      rw [ih]
      simp only [List.mem_cons]
      constructor
      · rintro (hu | ⟨hmem, hk⟩)
        · exact Or.inl hu
        · exact Or.inr ⟨Or.inr hmem, hk⟩
      · rintro (hu | ⟨hmem | hmem, hk⟩)
        · exact Or.inl hu
        · subst hmem
          rw [NotebookProcessor.importsOf, hfp] at hk
          cases hk
        · exact Or.inr ⟨hmem, hk⟩
    | some nb =>
      rw [ih, mem_dictGet_imports_fold]
      simp only [List.mem_cons]
      constructor
      · rintro ((hu | ⟨hk, hu⟩) | ⟨hmem, hk⟩)
        · exact Or.inl hu
        · subst hu
          exact Or.inr ⟨Or.inl rfl, by rw [NotebookProcessor.importsOf, hfp]; exact hk⟩
        · exact Or.inr ⟨Or.inr hmem, hk⟩
      · rintro (hu | ⟨hmem | hmem, hk⟩)
        · exact Or.inl (Or.inl hu)
        · subst hmem
          rw [NotebookProcessor.importsOf, hfp] at hk
          exact Or.inl (Or.inr ⟨hk, rfl⟩)
        · exact Or.inr ⟨hmem, hk⟩

theorem mem_dictKeys_extract_fold (fs : String → Option Notebook) (paths : List String) :
    ∀ (acc : List (String × List String)) (k : String),
      k ∈ NotebookProcessor.dictKeys
          (paths.foldl (fun acc p =>
            match fs p with
            | none => acc
            | some nb =>
              (NotebookProcessor.extract_imports_from_notebook nb).foldl
                (fun acc imp => NotebookProcessor.dict_append acc imp p) acc) acc)
        ↔ k ∈ NotebookProcessor.dictKeys acc
            ∨ ∃ p ∈ paths, k ∈ NotebookProcessor.importsOf fs p := by
  induction paths with
  | nil => intro acc k; simp
  | cons p rest ih =>
    intro acc k
    simp only [List.foldl_cons]
    cases hfp : fs p with
    | none =>
      rw [ih, List.exists_mem_cons_iff]
      rw [NotebookProcessor.importsOf, hfp]
      simp
    | some nb =>
      rw [ih, mem_dictKeys_imports_fold, List.exists_mem_cons_iff]
      rw [NotebookProcessor.importsOf, hfp]
      tauto

theorem mem_dictGet_extract_imports (fs : String → Option Notebook)
    (paths : List String) (k u : String) :
    u ∈ NotebookProcessor.dictGet (NotebookProcessor.extract_imports fs paths) k
      ↔ u ∈ paths ∧ k ∈ NotebookProcessor.importsOf fs u := by
  rw [NotebookProcessor.extract_imports, mem_dictGet_extract_fold]
  simp [NotebookProcessor.dictGet, mem_pySet]

theorem mem_dictKeys_extract_imports (fs : String → Option Notebook)
    (paths : List String) (k : String) :
    k ∈ NotebookProcessor.dictKeys (NotebookProcessor.extract_imports fs paths)
      ↔ ∃ p ∈ paths, k ∈ NotebookProcessor.importsOf fs p := by
  rw [NotebookProcessor.extract_imports, mem_dictKeys_extract_fold]
  constructor
  · rintro (hk | ⟨p, hp, hk⟩)
    · simp [NotebookProcessor.dictKeys] at hk
    · exact ⟨p, (mem_pySet p paths).mp hp, hk⟩
  · rintro ⟨p, hp, hk⟩
    exact Or.inr ⟨p, (mem_pySet p paths).mpr hp, hk⟩

/-- C9: `extract_imports` is order-independent: for every filesystem and
every permutation of the notebook path list, the two resulting mappings have
the same key set, and for every key the same set of notebook paths. -/
theorem C9_extract_imports_order_independent (fs : String → Option Notebook)
    (l1 l2 : List String) (h : l1.Perm l2) :
    (∀ k, k ∈ NotebookProcessor.dictKeys (NotebookProcessor.extract_imports fs l1)
        ↔ k ∈ NotebookProcessor.dictKeys (NotebookProcessor.extract_imports fs l2))
    ∧ (∀ k u, u ∈ NotebookProcessor.dictGet (NotebookProcessor.extract_imports fs l1) k
        ↔ u ∈ NotebookProcessor.dictGet (NotebookProcessor.extract_imports fs l2) k) := by
  constructor
  · intro k
    rw [mem_dictKeys_extract_imports, mem_dictKeys_extract_imports]
    constructor
    · rintro ⟨p, hp, hk⟩
      exact ⟨p, h.mem_iff.mp hp, hk⟩
    · rintro ⟨p, hp, hk⟩
      exact ⟨p, h.mem_iff.mpr hp, hk⟩
  · intro k u
    rw [mem_dictGet_extract_imports, mem_dictGet_extract_imports, h.mem_iff]

/-- C9 (witness): the order-independence at a concrete filesystem and a
concrete two-element permutation. -/
theorem C9_witness :
    (∀ k, k ∈ NotebookProcessor.dictKeys (NotebookProcessor.extract_imports
          (fun p => if p == "/nb/a.ipynb" then some numpyNotebook else none)
          ["/nb/a.ipynb", "x"])
        ↔ k ∈ NotebookProcessor.dictKeys (NotebookProcessor.extract_imports
          (fun p => if p == "/nb/a.ipynb" then some numpyNotebook else none)
          ["x", "/nb/a.ipynb"]))
    ∧ (∀ k u, u ∈ NotebookProcessor.dictGet (NotebookProcessor.extract_imports
          (fun p => if p == "/nb/a.ipynb" then some numpyNotebook else none)
          ["/nb/a.ipynb", "x"]) k
        ↔ u ∈ NotebookProcessor.dictGet (NotebookProcessor.extract_imports
          (fun p => if p == "/nb/a.ipynb" then some numpyNotebook else none)
          ["x", "/nb/a.ipynb"]) k) :=
  C9_extract_imports_order_independent
    (fun p => if p == "/nb/a.ipynb" then some numpyNotebook else none)
    ["/nb/a.ipynb", "x"] ["x", "/nb/a.ipynb"]
    (List.Perm.swap "x" "/nb/a.ipynb" [])

theorem ensure_not_validated {s : SpecManagerState} (h : s.is_validated = false) :
    SpecManager.ensure_validated s
      = .error (.runtimeError "Spec must be validated before accessing data") := by
  simp [SpecManager.ensure_validated, h]

theorem ensure_validated_ok {s : SpecManagerState} (h : s.is_validated = true) :
    SpecManager.ensure_validated s = .ok () := by
  simp [SpecManager.ensure_validated, h]

theorem validate_sets_flag (s : SpecManagerState)
    (h : (SpecManager.validate s).2 = true) :
    (SpecManager.validate s).1.is_validated = true := by
  unfold SpecManager.validate at h ⊢
  by_cases h1 : s.spec.isEmptyDoc
  · rw [if_pos h1] at h
    cases h
  · rw [if_neg h1] at h ⊢
    by_cases h2 : ((validate_top_level_structure s.spec).1
        && (SpecManager.validate_header_of s.spec).1
        && (validate_selected_notebooks_section s.spec).1
        && (validate_directory_repos s.spec).1) = true
    · simp [h2]
    · simp only [eq_self_iff_true] at h2 ⊢
      rw [if_neg h2] at h
      cases h

theorem isRuntimeError_bind {α β : Type} (e : Except PyErr α) (f : α → Except PyErr β)
    (he : isRuntimeError e = false) (hf : ∀ a, isRuntimeError (f a) = false) :
    isRuntimeError (e >>= f) = false := by
  cases e with
  | error err =>
    cases err with
    | runtimeError m => exact he
    | keyError x => rfl
    | nameError x => rfl
    | valueError x => rfl
  | ok a => exact hf a

theorem isRuntimeError_header_item (s : SpecManagerState) (k : String) :
    isRuntimeError (SpecManager.header_item s k) = false := by
  unfold SpecManager.header_item
  split
  · rfl
  · split <;> rfl

/-- C10: every spec-derived accessor of `SpecManager` raises `RuntimeError`
exactly while the spec is unvalidated: on a state whose validation flag is
unset (the flag is set only by a successful `validate()`) all eight
accessors return the `RuntimeError`; after a successful `validate()` none of
them can produce that error (a missing key surfaces as `KeyError`, never
`RuntimeError`). -/
theorem C10_validation_gates_accessors : ∀ s : SpecManagerState,
    (s.is_validated = false →
      SpecManager.deployment_name s
          = .error (.runtimeError "Spec must be validated before accessing data")
        ∧ SpecManager.kernel_name s
            = .error (.runtimeError "Spec must be validated before accessing data")
        ∧ SpecManager.image_name s
            = .error (.runtimeError "Spec must be validated before accessing data")
        ∧ SpecManager.python_version s
            = .error (.runtimeError "Spec must be validated before accessing data")
        ∧ SpecManager.nb_repo s
            = .error (.runtimeError "Spec must be validated before accessing data")
        ∧ SpecManager.selected_notebooks s
            = .error (.runtimeError "Spec must be validated before accessing data")
        ∧ SpecManager.get_moniker s
            = .error (.runtimeError "Spec must be validated before accessing data")
        ∧ SpecManager.get_repository_urls s
            = .error (.runtimeError "Spec must be validated before accessing data"))
    ∧ ((SpecManager.validate s).2 = true →
        isRuntimeError (SpecManager.deployment_name (SpecManager.validate s).1) = false
        ∧ isRuntimeError (SpecManager.kernel_name (SpecManager.validate s).1) = false
        ∧ isRuntimeError (SpecManager.image_name (SpecManager.validate s).1) = false
        ∧ isRuntimeError (SpecManager.python_version (SpecManager.validate s).1) = false
        ∧ isRuntimeError (SpecManager.nb_repo (SpecManager.validate s).1) = false
        ∧ isRuntimeError (SpecManager.selected_notebooks (SpecManager.validate s).1) = false
        ∧ isRuntimeError (SpecManager.get_moniker (SpecManager.validate s).1) = false
        ∧ isRuntimeError (SpecManager.get_repository_urls (SpecManager.validate s).1) = false) := by
  intro s
  constructor
  · intro h
    refine ⟨?_, ?_, ?_, ?_, ?_, ?_, ?_, ?_⟩
    · unfold SpecManager.deployment_name
      rw [ensure_not_validated h]
      rfl
    · unfold SpecManager.kernel_name
      rw [ensure_not_validated h]
      rfl
    · unfold SpecManager.image_name
      rw [ensure_not_validated h]
      rfl
    · unfold SpecManager.python_version
      rw [ensure_not_validated h]
      rfl
    · unfold SpecManager.nb_repo
      rw [ensure_not_validated h]
      rfl
    · unfold SpecManager.selected_notebooks
      rw [ensure_not_validated h]
      rfl
    · unfold SpecManager.get_moniker
      rw [ensure_not_validated h]
      rfl
    · unfold SpecManager.get_repository_urls
      rw [ensure_not_validated h]
      rfl
  · intro h
    have hv : (SpecManager.validate s).1.is_validated = true := validate_sets_flag s h
    have hdep : SpecManager.deployment_name (SpecManager.validate s).1
        = SpecManager.header_item (SpecManager.validate s).1 "deployment_name" := by
      unfold SpecManager.deployment_name
      rw [ensure_validated_ok hv]
      rfl
    have hker : SpecManager.kernel_name (SpecManager.validate s).1
        = SpecManager.header_item (SpecManager.validate s).1 "kernel_name" := by
      unfold SpecManager.kernel_name
      rw [ensure_validated_ok hv]
      rfl
    have himg : SpecManager.image_name (SpecManager.validate s).1
        = SpecManager.header_item (SpecManager.validate s).1 "image_name" := by
      unfold SpecManager.image_name
      rw [ensure_validated_ok hv]
      rfl
    have hpy : SpecManager.python_version (SpecManager.validate s).1
        = SpecManager.header_item (SpecManager.validate s).1 "python_version" := by
      unfold SpecManager.python_version
      rw [ensure_validated_ok hv]
      rfl
    have hrepo : SpecManager.nb_repo (SpecManager.validate s).1
        = SpecManager.header_item (SpecManager.validate s).1 "nb_repo" := by
      unfold SpecManager.nb_repo
      rw [ensure_validated_ok hv]
      rfl
    have hsel : isRuntimeError
        (SpecManager.selected_notebooks (SpecManager.validate s).1) = false := by
      unfold SpecManager.selected_notebooks
      rw [ensure_validated_ok hv]
      cases (SpecManager.validate s).1.spec.selected_notebooks with
      | none => rfl
      | some entries => rfl
    refine ⟨?_, ?_, ?_, ?_, ?_, hsel, ?_, ?_⟩
    · rw [hdep]; exact isRuntimeError_header_item _ _
    · rw [hker]; exact isRuntimeError_header_item _ _
    · rw [himg]; exact isRuntimeError_header_item _ _
    · rw [hpy]; exact isRuntimeError_header_item _ _
    · rw [hrepo]; exact isRuntimeError_header_item _ _
    · have hmon : SpecManager.get_moniker (SpecManager.validate s).1
          = (SpecManager.image_name (SpecManager.validate s).1 >>= fun name =>
              Except.ok (SpecManager.strLower (strReplace name " " "-"))) := by
        unfold SpecManager.get_moniker
        rw [ensure_validated_ok hv]
        rfl
      rw [hmon]
      refine isRuntimeError_bind _ _ ?_ (fun a => rfl)
      rw [himg]
      exact isRuntimeError_header_item _ _
    · have hurls : SpecManager.get_repository_urls (SpecManager.validate s).1
          = (SpecManager.nb_repo (SpecManager.validate s).1 >>= fun default =>
              SpecManager.selected_notebooks (SpecManager.validate s).1 >>= fun entries =>
                Except.ok (SpecManager.repository_urls_of default (entries.map (fun e =>
                  (e.items.find? (fun kv => kv.1 == "nb_repo")).map Prod.snd)))) := by
        unfold SpecManager.get_repository_urls
        rw [ensure_validated_ok hv]
        rfl
      rw [hurls]
      refine isRuntimeError_bind _ _ ?_ (fun d => ?_)
      · rw [hrepo]; exact isRuntimeError_header_item _ _
      · exact isRuntimeError_bind _ _ hsel (fun entries => rfl)

/-- C10 (witness): the gating at a concrete state: before validation the
`deployment_name` accessor raises the `RuntimeError`; after the successful
validation of `exampleSpecDoc` the `get_repository_urls` accessor does not. -/
theorem C10_witness :
    SpecManager.deployment_name exampleState
        = .error (.runtimeError "Spec must be validated before accessing data")
      ∧ isRuntimeError
          (SpecManager.get_repository_urls (SpecManager.validate exampleState).1) = false := by
  refine ⟨((C10_validation_gates_accessors exampleState).1 rfl).1, ?_⟩
  exact ((C10_validation_gates_accessors exampleState).2 (by decide)).2.2.2.2.2.2.2

end NbCurator
